import Mathlib

/-!
Verification of the `float3x4` elementwise arithmetic fragment.

The source defines a 3-row, 4-column matrix of 32-bit floats built from
three 4-wide float vectors, together with 12 operator overloads:
{+, -, *, /} × {matrix∘matrix, matrix∘scalar, scalar∘matrix}.

The matrix glue is embedded directly from the source.  The 4-wide vector
type `float4` and the scalar `f32` arithmetic are external collaborators
(not part of the given source tree), so they are modelled from the spec:
`float4` is a 4-lane vector operating lane-by-lane, and each lane is an
IEEE-754 binary32 value.  The binary32 model `F32` represents the
floating-point data (sign, biased exponent, mantissa, signed infinities)
exactly; NaN payloads are abstracted into a single canonical `nan`
(IEEE-754 does not determine payload propagation).  Arithmetic is exact
rational arithmetic followed by round-to-nearest-even, with IEEE-754
signed-zero, infinity and NaN special cases.
-/

/-- Modelled from the spec: an IEEE-754 binary32 datum (the lane type of
the missing `float4`/`f32` collaborators).  `fin s e m` is the finite
value with sign `s` (`true` = negative), biased exponent `e ≤ 254` and
mantissa `m < 2^23`; `e = 0` is the subnormal/zero regime.  NaN payloads
are collapsed into the single `nan`. -/
inductive F32 where
  | nan : F32
  | inf (s : Bool) : F32
  | fin (s : Bool) (e : Fin 255) (m : Fin 8388608) : F32
deriving DecidableEq

/-- Modelled from the spec: the real value of a finite binary32 datum
with sign `s`, biased exponent `e` and mantissa `m`.  Subnormal regime
(`e = 0`): `±m·2^(-149)`; normal regime: `±(2^23 + m)·2^(e-150)`. -/
def fval (s : Bool) (e : ℕ) (m : ℕ) : ℚ :=
  let mag : ℚ :=
    if e = 0 then (m : ℚ) * (2:ℚ) ^ (-149 : ℤ)
    else ((8388608 + m : ℕ) : ℚ) * (2:ℚ) ^ ((e : ℤ) - 150)
  if s then -mag else mag

/-- Rational value of a binary32 datum (`0` for `nan` and infinities). -/
def F32.val : F32 → ℚ
  | .nan => 0
  | .inf _ => 0
  | .fin s e m => fval s e.val m.val

def F32.isNan : F32 → Bool
  | .nan => true
  | _ => false

def F32.isFinite : F32 → Bool
  | .fin _ _ _ => true
  | _ => false

/-- Zero test on the binary32 representation (true for `±0`). -/
def F32.isZero : F32 → Bool
  | .fin _ e m => e.val == 0 && m.val == 0
  | _ => false

/-- Floor of the base-2 logarithm of a positive rational. -/
def flog2 (q : ℚ) : ℤ :=
  let g : ℤ := (Nat.log2 q.num.toNat : ℤ) - (Nat.log2 q.den : ℤ)
  if (2:ℚ) ^ g ≤ q then g else g - 1

/-- Round a rational to the nearest integer, ties to even. -/
def rneZ (q : ℚ) : ℤ :=
  let f := ⌊q⌋
  if q - f < 1/2 then f
  else if (1:ℚ)/2 < q - f then f + 1
  else if f % 2 = 0 then f else f + 1

/-- Build a finite binary32 datum from sign, biased exponent and
mantissa given as plain naturals (reduced into range; all uses are
in-range, as the correctness lemmas verify). -/
def mkF (s : Bool) (e m : ℕ) : F32 :=
  F32.fin s ⟨e % 255, Nat.mod_lt _ (by decide)⟩ ⟨m % 8388608, Nat.mod_lt _ (by decide)⟩

/-- Modelled from the spec: round-to-nearest-even of a positive rational
magnitude into binary32 with sign `s`, overflowing to infinity. -/
def roundF (s : Bool) (q : ℚ) : F32 :=
  let e2 := flog2 q
  if 128 ≤ e2 then F32.inf s
  else
    let t : ℤ := max (-126) e2
    let n : ℤ := rneZ (q * (2:ℚ) ^ (23 - t))
    if n < 8388608 then mkF s 0 n.toNat
    else if n < 16777216 then mkF s (t + 127).toNat (n - 8388608).toNat
    else if t = 127 then F32.inf s
    else mkF s (t + 128).toNat 0

/-- Round a nonzero rational to binary32, sign taken from the value. -/
def roundQ (q : ℚ) : F32 :=
  if q < 0 then roundF true (-q) else roundF false q

/-- Modelled from the spec: IEEE-754 binary32 addition (exact rational
sum, then round-to-nearest-even; an exactly zero sum of finite operands
gets sign `s1 && s2`, per IEEE-754 round-to-nearest rules). -/
def fadd (x y : F32) : F32 :=
  match x, y with
  | .nan, _ => .nan
  | _, .nan => .nan
  | .inf s1, .inf s2 => if s1 == s2 then .inf s1 else .nan
  | .inf s1, .fin _ _ _ => .inf s1
  | .fin _ _ _, .inf s2 => .inf s2
  | .fin s1 e1 m1, .fin s2 e2 m2 =>
    let q := fval s1 e1.val m1.val + fval s2 e2.val m2.val
    if q = 0 then F32.fin (s1 && s2) ⟨0, by decide⟩ ⟨0, by decide⟩
    else roundQ q

/-- Binary32 negation (sign flip; `nan` stays `nan`). -/
def F32.neg : F32 → F32
  | .nan => .nan
  | .inf s => .inf (!s)
  | .fin s e m => .fin (!s) e m

/-- Modelled from the spec: IEEE-754 binary32 subtraction, which is
addition of the negated second operand. -/
def fsub (x y : F32) : F32 := fadd x (F32.neg y)

/-- Modelled from the spec: IEEE-754 binary32 multiplication (exact
rational product, then round-to-nearest-even; result sign is the XOR of
the operand signs, `∞ × 0 = NaN`). -/
def fmul (x y : F32) : F32 :=
  match x, y with
  | .nan, _ => .nan
  | _, .nan => .nan
  | .inf s1, .inf s2 => .inf (xor s1 s2)
  | .inf s1, .fin s2 e m =>
    if e.val == 0 && m.val == 0 then .nan else .inf (xor s1 s2)
  | .fin s1 e m, .inf s2 =>
    if e.val == 0 && m.val == 0 then .nan else .inf (xor s1 s2)
  | .fin s1 e1 m1, .fin s2 e2 m2 =>
    let q := fval s1 e1.val m1.val * fval s2 e2.val m2.val
    if q = 0 then F32.fin (xor s1 s2) ⟨0, by decide⟩ ⟨0, by decide⟩
    else roundQ q

/-- Modelled from the spec: IEEE-754 binary32 division (exact rational
quotient, then round-to-nearest-even; `x/0 = ±∞` for `x ≠ 0`,
`0/0 = NaN`, `x/∞ = ±0`, `∞/∞ = NaN`). -/
def fdiv (x y : F32) : F32 :=
  match x, y with
  | .nan, _ => .nan
  | _, .nan => .nan
  | .inf _, .inf _ => .nan
  | .inf s1, .fin s2 _ _ => .inf (xor s1 s2)
  | .fin s1 _ _, .inf s2 => F32.fin (xor s1 s2) ⟨0, by decide⟩ ⟨0, by decide⟩
  | .fin s1 e1 m1, .fin s2 e2 m2 =>
    if e2.val == 0 && m2.val == 0 then
      if e1.val == 0 && m1.val == 0 then .nan
      else .inf (xor s1 s2)
    else
      let q := fval s1 e1.val m1.val / fval s2 e2.val m2.val
      if q = 0 then F32.fin (xor s1 s2) ⟨0, by decide⟩ ⟨0, by decide⟩
      else roundQ q

/-- Modelled from the spec: IEEE-754 equality on binary32 (`NaN` is
unequal to everything, `+0 == -0`, finite data compare by value). -/
def feq (x y : F32) : Bool :=
  match x, y with
  | .nan, _ => false
  | _, .nan => false
  | .inf s1, .inf s2 => s1 == s2
  | .inf _, .fin _ _ _ => false
  | .fin _ _ _, .inf _ => false
  | .fin s1 e1 m1, .fin s2 e2 m2 =>
    decide (fval s1 e1.val m1.val = fval s2 e2.val m2.val)

/-- Positive binary32 zero. -/
def f32zero : F32 := .fin false ⟨0, by decide⟩ ⟨0, by decide⟩

/-- Binary32 one. -/
def f32one : F32 := .fin false ⟨127, by decide⟩ ⟨0, by decide⟩

/-- Binary32 minus one. -/
def f32negOne : F32 := .fin true ⟨127, by decide⟩ ⟨0, by decide⟩

/-- Binary32 two. -/
def f32two : F32 := .fin false ⟨128, by decide⟩ ⟨0, by decide⟩

/-- Modelled from the spec: the external 4-wide float vector type
`float4`, four binary32 lanes. -/
structure float4 where
  x : F32
  y : F32
  z : F32
  w : F32
deriving DecidableEq

/-- Modelled from the spec: `float4::broadcast` replicates a scalar into
all four lanes. -/
def float4.broadcast (s : F32) : float4 := ⟨s, s, s, s⟩

/-- Modelled from the spec: lane-by-lane `float4` addition. -/
def float4.add (a b : float4) : float4 :=
  ⟨fadd a.x b.x, fadd a.y b.y, fadd a.z b.z, fadd a.w b.w⟩

/-- Modelled from the spec: lane-by-lane `float4` subtraction. -/
def float4.sub (a b : float4) : float4 :=
  ⟨fsub a.x b.x, fsub a.y b.y, fsub a.z b.z, fsub a.w b.w⟩

/-- Modelled from the spec: lane-by-lane `float4` multiplication. -/
def float4.mul (a b : float4) : float4 :=
  ⟨fmul a.x b.x, fmul a.y b.y, fmul a.z b.z, fmul a.w b.w⟩

/-- Modelled from the spec: lane-by-lane `float4` division. -/
def float4.div (a b : float4) : float4 :=
  ⟨fdiv a.x b.x, fdiv a.y b.y, fdiv a.z b.z, fdiv a.w b.w⟩

/-- The matrix type of the source: three `float4` rows (the source's
tuple fields `.0`, `.1`, `.2`, which the spec calls `row0..row2`). -/
structure float3x4 where
  row0 : float4
  row1 : float4
  row2 : float4
deriving DecidableEq

/-- The source's type alias `matrix_float3x4 = float3x4`. -/
def matrix_float3x4 := float3x4

/-- Row accessor, `row i` for `i ∈ {0,1,2}`. -/
def float3x4.row (a : float3x4) (i : Fin 3) : float4 :=
  if i.val = 0 then a.row0 else if i.val = 1 then a.row1 else a.row2

/-- Embeds `impl Add for float3x4`. -/
def float3x4.add (self other : float3x4) : float3x4 :=
  ⟨self.row0.add other.row0, self.row1.add other.row1, self.row2.add other.row2⟩

/-- Embeds `impl Add<f32> for float3x4`. -/
def float3x4.addScalar (self : float3x4) (other : F32) : float3x4 :=
  let o := float4.broadcast other
  ⟨self.row0.add o, self.row1.add o, self.row2.add o⟩

/-- Embeds `impl Add<float3x4> for f32`. -/
def F32.addMat (self : F32) (other : float3x4) : float3x4 :=
  let scalar := float4.broadcast self
  ⟨scalar.add other.row0, scalar.add other.row1, scalar.add other.row2⟩

/-- Embeds `impl Sub for float3x4`. -/
def float3x4.sub (self other : float3x4) : float3x4 :=
  ⟨self.row0.sub other.row0, self.row1.sub other.row1, self.row2.sub other.row2⟩

/-- Embeds `impl Sub<f32> for float3x4`. -/
def float3x4.subScalar (self : float3x4) (other : F32) : float3x4 :=
  let o := float4.broadcast other
  ⟨self.row0.sub o, self.row1.sub o, self.row2.sub o⟩

/-- Embeds `impl Sub<float3x4> for f32`. -/
def F32.subMat (self : F32) (other : float3x4) : float3x4 :=
  let scalar := float4.broadcast self
  ⟨scalar.sub other.row0, scalar.sub other.row1, scalar.sub other.row2⟩

/-- Embeds `impl Mul for float3x4`. -/
def float3x4.mul (self other : float3x4) : float3x4 :=
  ⟨self.row0.mul other.row0, self.row1.mul other.row1, self.row2.mul other.row2⟩

/-- Embeds `impl Mul<f32> for float3x4`. -/
def float3x4.mulScalar (self : float3x4) (other : F32) : float3x4 :=
  let o := float4.broadcast other
  ⟨self.row0.mul o, self.row1.mul o, self.row2.mul o⟩

/-- Embeds `impl Mul<float3x4> for f32`. -/
def F32.mulMat (self : F32) (other : float3x4) : float3x4 :=
  let scalar := float4.broadcast self
  ⟨scalar.mul other.row0, scalar.mul other.row1, scalar.mul other.row2⟩

/-- Embeds `impl Div for float3x4`. -/
def float3x4.div (self other : float3x4) : float3x4 :=
  ⟨self.row0.div other.row0, self.row1.div other.row1, self.row2.div other.row2⟩

/-- Embeds `impl Div<f32> for float3x4`. -/
def float3x4.divScalar (self : float3x4) (other : F32) : float3x4 :=
  let o := float4.broadcast other
  ⟨self.row0.div o, self.row1.div o, self.row2.div o⟩

/-- Embeds `impl Div<float3x4> for f32`. -/
def F32.divMat (self : F32) (other : float3x4) : float3x4 :=
  let scalar := float4.broadcast self
  ⟨scalar.div other.row0, scalar.div other.row1, scalar.div other.row2⟩

/-- Lane-wise IEEE-754 equality on `float4`. -/
def float4.feq4 (a b : float4) : Bool :=
  feq a.x b.x && feq a.y b.y && feq a.z b.z && feq a.w b.w

/-- Elementwise IEEE-754 equality on `float3x4`. -/
def float3x4.feqM (a b : float3x4) : Bool :=
  a.row0.feq4 b.row0 && a.row1.feq4 b.row1 && a.row2.feq4 b.row2

/-- All four lanes are finite. -/
def float4.allFinite (v : float4) : Bool :=
  v.x.isFinite && v.y.isFinite && v.z.isFinite && v.w.isFinite

/-- All twelve entries are finite. -/
def float3x4.allFinite (a : float3x4) : Bool :=
  a.row0.allFinite && a.row1.allFinite && a.row2.allFinite

/-- The rows of a matrix, as a list. -/
def float3x4.rowsList (a : float3x4) : List float4 := [a.row0, a.row1, a.row2]

/-- The lanes of a row, as a list. -/
def float4.lanesList (v : float4) : List F32 := [v.x, v.y, v.z, v.w]

/-- The concrete matrix of the division-by-zero scenario: row0 is
`[1.0, -1.0, 0.0, 2.0]` (the other rows are zero). -/
def c6M : float3x4 :=
  ⟨⟨f32one, f32negOne, f32zero, f32two⟩,
   float4.broadcast f32zero, float4.broadcast f32zero⟩

/-- A matrix has the 3×4 shape: exactly 3 rows, each of exactly 4 lanes. -/
def hasShape3x4 (a : float3x4) : Prop :=
  a.rowsList.length = 3 ∧ ∀ r ∈ a.rowsList, r.lanesList.length = 4

/-- The 12 operators as a client reaches them through the alias
`matrix_float3x4` (the alias is transparent, so these are the very same
functions). -/
def matrix_float3x4.add : matrix_float3x4 → matrix_float3x4 → matrix_float3x4 := float3x4.add

def matrix_float3x4.sub : matrix_float3x4 → matrix_float3x4 → matrix_float3x4 := float3x4.sub

def matrix_float3x4.mul : matrix_float3x4 → matrix_float3x4 → matrix_float3x4 := float3x4.mul

def matrix_float3x4.div : matrix_float3x4 → matrix_float3x4 → matrix_float3x4 := float3x4.div

def matrix_float3x4.addScalar : matrix_float3x4 → F32 → matrix_float3x4 := float3x4.addScalar

def matrix_float3x4.subScalar : matrix_float3x4 → F32 → matrix_float3x4 := float3x4.subScalar

def matrix_float3x4.mulScalar : matrix_float3x4 → F32 → matrix_float3x4 := float3x4.mulScalar

def matrix_float3x4.divScalar : matrix_float3x4 → F32 → matrix_float3x4 := float3x4.divScalar

def matrix_float3x4.addScalarLeft : F32 → matrix_float3x4 → matrix_float3x4 := F32.addMat

def matrix_float3x4.subScalarLeft : F32 → matrix_float3x4 → matrix_float3x4 := F32.subMat

def matrix_float3x4.mulScalarLeft : F32 → matrix_float3x4 → matrix_float3x4 := F32.mulMat

def matrix_float3x4.divScalarLeft : F32 → matrix_float3x4 → matrix_float3x4 := F32.divMat

/-- A concrete all-finite matrix exercising the identity laws: it mixes
one, minus one, negative zero, two, a subnormal and broadcast rows. -/
def c5M : float3x4 :=
  ⟨⟨f32one, f32negOne, F32.fin true ⟨0, by decide⟩ ⟨0, by decide⟩, f32two⟩,
   ⟨F32.fin false ⟨0, by decide⟩ ⟨1, by decide⟩, f32one, f32two, f32negOne⟩,
   float4.broadcast f32one⟩

example : fdiv f32one f32zero = F32.inf false := by decide
example : fdiv f32negOne f32zero = F32.inf true := by decide
example : fdiv f32zero f32zero = F32.nan := by decide

/-- C1: for every pair of matrices and each of the four operators, row `i`
of the matrix-matrix result equals the underlying 4-wide elementwise
operation applied to the operands' rows `i`, for every `i ∈ {0,1,2}`. -/
theorem C1_matrix_matrix_rowwise (A B : float3x4) (i : Fin 3) :
    (A.add B).row i = (A.row i).add (B.row i) ∧
    (A.sub B).row i = (A.row i).sub (B.row i) ∧
    (A.mul B).row i = (A.row i).mul (B.row i) ∧
    (A.div B).row i = (A.row i).div (B.row i) := by
  fin_cases i <;> exact ⟨rfl, rfl, rfl, rfl⟩

/-- C2: for every scalar `s`, matrix `M` and each of the four operators,
row `i` of the scalar-matrix result is `broadcast(s)` combined with
`M.row_i` in that operand order — in particular
`(s - M).row_i = broadcast(s) - M.row_i` and
`(s / M).row_i = broadcast(s) / M.row_i`. -/
theorem C2_scalar_matrix_rowwise (s : F32) (M : float3x4) (i : Fin 3) :
    (s.addMat M).row i = (float4.broadcast s).add (M.row i) ∧
    (s.subMat M).row i = (float4.broadcast s).sub (M.row i) ∧
    (s.mulMat M).row i = (float4.broadcast s).mul (M.row i) ∧
    (s.divMat M).row i = (float4.broadcast s).div (M.row i) := by
  fin_cases i <;> exact ⟨rfl, rfl, rfl, rfl⟩

/-- C3: for every matrix `M`, scalar `s` and each of the four operators,
row `i` of the matrix-scalar result is `M.row_i` combined with the 4-wide
broadcast of `s` (all four lanes equal to `s`), scalar on the right. -/
theorem C3_matrix_scalar_rowwise (M : float3x4) (s : F32) (i : Fin 3) :
    (M.addScalar s).row i = (M.row i).add (float4.broadcast s) ∧
    (M.subScalar s).row i = (M.row i).sub (float4.broadcast s) ∧
    (M.mulScalar s).row i = (M.row i).mul (float4.broadcast s) ∧
    (M.divScalar s).row i = (M.row i).div (float4.broadcast s) := by
  fin_cases i <;> exact ⟨rfl, rfl, rfl, rfl⟩

/-- C6: dividing by the scalar `0.0` follows IEEE-754 semantics lane by
lane: with `row0 = [1.0, -1.0, 0.0, 2.0]`, the result's row0 is
`[+∞, -∞, NaN, +∞]`, the NaN lane identified by `isNan`. -/
theorem C6_div_by_zero_ieee :
    (c6M.divScalar f32zero).row0.x = F32.inf false ∧
    (c6M.divScalar f32zero).row0.y = F32.inf true ∧
    ((c6M.divScalar f32zero).row0.z).isNan = true ∧
    (c6M.divScalar f32zero).row0.w = F32.inf false := by
  decide

/-- C7: each of the 12 operations is a total function: for every operand
pair it returns a matrix (a value of the `float3x4` constructor) along
every path, with no error path — including division by zero, since the
quantification over `B` and `s` covers zero rows and the zero scalar. -/
theorem C7_operations_total (A B : float3x4) (s : F32) :
    (∃ r0 r1 r2, A.add B = float3x4.mk r0 r1 r2) ∧
    (∃ r0 r1 r2, A.sub B = float3x4.mk r0 r1 r2) ∧
    (∃ r0 r1 r2, A.mul B = float3x4.mk r0 r1 r2) ∧
    (∃ r0 r1 r2, A.div B = float3x4.mk r0 r1 r2) ∧
    (∃ r0 r1 r2, A.addScalar s = float3x4.mk r0 r1 r2) ∧
    (∃ r0 r1 r2, A.subScalar s = float3x4.mk r0 r1 r2) ∧
    (∃ r0 r1 r2, A.mulScalar s = float3x4.mk r0 r1 r2) ∧
    (∃ r0 r1 r2, A.divScalar s = float3x4.mk r0 r1 r2) ∧
    (∃ r0 r1 r2, s.addMat A = float3x4.mk r0 r1 r2) ∧
    (∃ r0 r1 r2, s.subMat A = float3x4.mk r0 r1 r2) ∧
    (∃ r0 r1 r2, s.mulMat A = float3x4.mk r0 r1 r2) ∧
    (∃ r0 r1 r2, s.divMat A = float3x4.mk r0 r1 r2) :=
  ⟨⟨_, _, _, rfl⟩, ⟨_, _, _, rfl⟩, ⟨_, _, _, rfl⟩, ⟨_, _, _, rfl⟩,
   ⟨_, _, _, rfl⟩, ⟨_, _, _, rfl⟩, ⟨_, _, _, rfl⟩, ⟨_, _, _, rfl⟩,
   ⟨_, _, _, rfl⟩, ⟨_, _, _, rfl⟩, ⟨_, _, _, rfl⟩, ⟨_, _, _, rfl⟩⟩

/-- C8: no operator mutates its operands.  The source operators take both
operands by value, so the shallow embedding renders each call as a pure
function; pairing the call's result with the operand values shows the
operands are unchanged and the result is a newly constructed matrix
(a fresh `float3x4.mk` application), for all 12 operators. -/
theorem C8_operators_pure (A B : float3x4) (s : F32) :
    (A.add B, A, B)
      = (float3x4.mk (A.row0.add B.row0) (A.row1.add B.row1) (A.row2.add B.row2), A, B) ∧
    (A.sub B, A, B)
      = (float3x4.mk (A.row0.sub B.row0) (A.row1.sub B.row1) (A.row2.sub B.row2), A, B) ∧
    (A.mul B, A, B)
      = (float3x4.mk (A.row0.mul B.row0) (A.row1.mul B.row1) (A.row2.mul B.row2), A, B) ∧
    (A.div B, A, B)
      = (float3x4.mk (A.row0.div B.row0) (A.row1.div B.row1) (A.row2.div B.row2), A, B) ∧
    (A.addScalar s, A, s)
      = (float3x4.mk (A.row0.add (float4.broadcast s)) (A.row1.add (float4.broadcast s))
          (A.row2.add (float4.broadcast s)), A, s) ∧
    (A.subScalar s, A, s)
      = (float3x4.mk (A.row0.sub (float4.broadcast s)) (A.row1.sub (float4.broadcast s))
          (A.row2.sub (float4.broadcast s)), A, s) ∧
    (A.mulScalar s, A, s)
      = (float3x4.mk (A.row0.mul (float4.broadcast s)) (A.row1.mul (float4.broadcast s))
          (A.row2.mul (float4.broadcast s)), A, s) ∧
    (A.divScalar s, A, s)
      = (float3x4.mk (A.row0.div (float4.broadcast s)) (A.row1.div (float4.broadcast s))
          (A.row2.div (float4.broadcast s)), A, s) ∧
    (s.addMat A, s, A)
      = (float3x4.mk ((float4.broadcast s).add A.row0) ((float4.broadcast s).add A.row1)
          ((float4.broadcast s).add A.row2), s, A) ∧
    (s.subMat A, s, A)
      = (float3x4.mk ((float4.broadcast s).sub A.row0) ((float4.broadcast s).sub A.row1)
          ((float4.broadcast s).sub A.row2), s, A) ∧
    (s.mulMat A, s, A)
      = (float3x4.mk ((float4.broadcast s).mul A.row0) ((float4.broadcast s).mul A.row1)
          ((float4.broadcast s).mul A.row2), s, A) ∧
    (s.divMat A, s, A)
      = (float3x4.mk ((float4.broadcast s).div A.row0) ((float4.broadcast s).div A.row1)
          ((float4.broadcast s).div A.row2), s, A) :=
  ⟨rfl, rfl, rfl, rfl, rfl, rfl, rfl, rfl, rfl, rfl, rfl, rfl⟩

theorem hasShape3x4_all (M : float3x4) : hasShape3x4 M := by
  constructor
  · rfl
  · intro r hr
    simp [float3x4.rowsList] at hr
    rcases hr with h | h | h <;> subst h <;> rfl

/-- C9: every operation preserves shape: each of the 12 operators yields a
matrix of exactly 3 rows of 4 lanes, the same shape the matrix operands
have (the shape holds for every `float3x4` value, i.e. it is fixed by the
type, not checked at runtime). -/
theorem C9_shape_preserved (A B : float3x4) (s : F32) :
    hasShape3x4 A ∧ hasShape3x4 B ∧
    hasShape3x4 (A.add B) ∧ hasShape3x4 (A.sub B) ∧
    hasShape3x4 (A.mul B) ∧ hasShape3x4 (A.div B) ∧
    hasShape3x4 (A.addScalar s) ∧ hasShape3x4 (A.subScalar s) ∧
    hasShape3x4 (A.mulScalar s) ∧ hasShape3x4 (A.divScalar s) ∧
    hasShape3x4 (s.addMat A) ∧ hasShape3x4 (s.subMat A) ∧
    hasShape3x4 (s.mulMat A) ∧ hasShape3x4 (s.divMat A) :=
  ⟨hasShape3x4_all _, hasShape3x4_all _, hasShape3x4_all _, hasShape3x4_all _,
   hasShape3x4_all _, hasShape3x4_all _, hasShape3x4_all _, hasShape3x4_all _,
   hasShape3x4_all _, hasShape3x4_all _, hasShape3x4_all _, hasShape3x4_all _,
   hasShape3x4_all _, hasShape3x4_all _⟩

/-- C10: the exported alias `matrix_float3x4` denotes exactly the type
`float3x4`, and each of the 12 operators reached through the alias is the
identical function — the alias carries no behavioral difference. -/
theorem C10_alias_same_type_same_ops :
    matrix_float3x4 = float3x4 ∧
    matrix_float3x4.add = float3x4.add ∧
    matrix_float3x4.sub = float3x4.sub ∧
    matrix_float3x4.mul = float3x4.mul ∧
    matrix_float3x4.div = float3x4.div ∧
    matrix_float3x4.addScalar = float3x4.addScalar ∧
    matrix_float3x4.subScalar = float3x4.subScalar ∧
    matrix_float3x4.mulScalar = float3x4.mulScalar ∧
    matrix_float3x4.divScalar = float3x4.divScalar ∧
    matrix_float3x4.addScalarLeft = F32.addMat ∧
    matrix_float3x4.subScalarLeft = F32.subMat ∧
    matrix_float3x4.mulScalarLeft = F32.mulMat ∧
    matrix_float3x4.divScalarLeft = F32.divMat :=
  ⟨rfl, rfl, rfl, rfl, rfl, rfl, rfl, rfl, rfl, rfl, rfl, rfl, rfl⟩

theorem two_zpow_pos (k : ℤ) : (0:ℚ) < 2 ^ k := zpow_pos (by norm_num) k

theorem natPow_cast_q (k : ℕ) : ((2 ^ k : ℕ) : ℚ) = (2:ℚ) ^ (k : ℤ) := by
  norm_cast

theorem flog2_spec (q : ℚ) (hq : 0 < q) :
    (2:ℚ) ^ flog2 q ≤ q ∧ q < (2:ℚ) ^ (flog2 q + 1) := by
  have hnum : 0 < q.num := Rat.num_pos.mpr hq
  have hden : 0 < q.den := q.pos
  simp only [flog2]
  set A := Nat.log2 q.num.toNat with hA
  set B := Nat.log2 q.den with hB
  have ha0 : q.num.toNat ≠ 0 := by omega
  have haq : ((q.num.toNat : ℕ) : ℚ) = (q.num : ℚ) := by
    norm_cast
    omega
  have h1 : (2:ℚ) ^ (A : ℤ) ≤ (q.num.toNat : ℚ) := by
    rw [← natPow_cast_q]
    exact_mod_cast Nat.log2_self_le ha0
  have h2 : (q.num.toNat : ℚ) < 2 ^ ((A : ℤ) + 1) := by
    have hx : q.num.toNat < 2 ^ (A + 1) := Nat.lt_log2_self
    calc (q.num.toNat : ℚ) < ((2 ^ (A + 1) : ℕ) : ℚ) := by exact_mod_cast hx
      _ = 2 ^ ((A : ℤ) + 1) := by rw [natPow_cast_q]; push_cast; ring_nf
  have h3 : (2:ℚ) ^ (B : ℤ) ≤ (q.den : ℚ) := by
    rw [← natPow_cast_q]
    exact_mod_cast Nat.log2_self_le (by omega : q.den ≠ 0)
  have h4 : (q.den : ℚ) < 2 ^ ((B : ℤ) + 1) := by
    have hx : q.den < 2 ^ (B + 1) := Nat.lt_log2_self
    calc (q.den : ℚ) < ((2 ^ (B + 1) : ℕ) : ℚ) := by exact_mod_cast hx
      _ = 2 ^ ((B : ℤ) + 1) := by rw [natPow_cast_q]; push_cast; ring_nf
  have hdq : (0:ℚ) < (q.den : ℚ) := by exact_mod_cast hden
  have hqe : q = (q.num.toNat : ℚ) / (q.den : ℚ) := by
    rw [haq, Rat.num_div_den]
  have key1 : q < 2 ^ ((A:ℤ) - B + 1) := by
    rw [hqe, div_lt_iff₀ hdq]
    calc (q.num.toNat : ℚ) < 2 ^ ((A:ℤ) + 1) := h2
      _ = 2 ^ ((A:ℤ) - B + 1) * 2 ^ (B:ℤ) := by
          rw [← zpow_add₀ (by norm_num : (2:ℚ) ≠ 0)]
          congr 1
          ring
      _ ≤ 2 ^ ((A:ℤ) - B + 1) * (q.den : ℚ) :=
          mul_le_mul_of_nonneg_left h3 (le_of_lt (two_zpow_pos _))
  have key2 : 2 ^ ((A:ℤ) - B - 1) ≤ q := by
    rw [hqe, le_div_iff₀ hdq]
    calc 2 ^ ((A:ℤ) - B - 1) * (q.den : ℚ)
        ≤ 2 ^ ((A:ℤ) - B - 1) * 2 ^ ((B:ℤ) + 1) :=
          mul_le_mul_of_nonneg_left (le_of_lt h4) (le_of_lt (two_zpow_pos _))
      _ = 2 ^ (A:ℤ) := by
          rw [← zpow_add₀ (by norm_num : (2:ℚ) ≠ 0)]
          congr 1
          ring
      _ ≤ (q.num.toNat : ℚ) := h1
  split_ifs with h
  · exact ⟨h, key1⟩
  · push_neg at h
    refine ⟨key2, ?_⟩
    have he : (A:ℤ) - B - 1 + 1 = (A:ℤ) - B := by ring
    rw [he]
    exact h

theorem flog2_unique (q : ℚ) (hq : 0 < q) (k : ℤ)
    (h1 : (2:ℚ) ^ k ≤ q) (h2 : q < 2 ^ (k + 1)) : flog2 q = k := by
  obtain ⟨l1, l2⟩ := flog2_spec q hq
  have c1 : flog2 q < k + 1 :=
    (zpow_lt_zpow_iff_right₀ (by norm_num : (1:ℚ) < 2)).mp (lt_of_le_of_lt l1 h2)
  have c2 : k < flog2 q + 1 :=
    (zpow_lt_zpow_iff_right₀ (by norm_num : (1:ℚ) < 2)).mp (lt_of_le_of_lt h1 l2)
  omega

theorem flog2_lt_of_lt (q : ℚ) (hq : 0 < q) (k : ℤ) (h : q < 2 ^ k) :
    flog2 q < k := by
  obtain ⟨l1, _⟩ := flog2_spec q hq
  exact (zpow_lt_zpow_iff_right₀ (by norm_num : (1:ℚ) < 2)).mp (lt_of_le_of_lt l1 h)

theorem rneZ_intCast (n : ℤ) : rneZ (n : ℚ) = n := by
  simp only [rneZ, Int.floor_intCast, sub_self]
  norm_num

theorem fval_zero_any (s : Bool) : fval s 0 0 = 0 := by
  cases s <;> simp [fval]

theorem fval_true_eq (e m : ℕ) : fval true e m = -fval false e m := by
  simp [fval]

theorem fval_false_pos (e m : ℕ) (h : e ≠ 0 ∨ m ≠ 0) : 0 < fval false e m := by
  simp only [fval, Bool.false_eq_true, if_false]
  split_ifs with he
  · have hm : m ≠ 0 := by tauto
    exact mul_pos (by exact_mod_cast Nat.pos_of_ne_zero hm) (two_zpow_pos _)
  · have hM : (0:ℚ) < ((8388608 + m : ℕ) : ℚ) := by
      have : 0 < 8388608 + m := by omega
      exact_mod_cast this
    exact mul_pos hM (two_zpow_pos _)

theorem roundF_subnormal (s : Bool) (m : ℕ) (hm0 : m ≠ 0) (hm : m < 8388608) :
    roundF s (fval false 0 m) = F32.fin s ⟨0, by decide⟩ ⟨m, hm⟩ := by
  have hqdef : fval false 0 m = (m : ℚ) * (2:ℚ) ^ (-149 : ℤ) := by
    simp [fval]
  have hqpos : 0 < fval false 0 m := fval_false_pos 0 m (Or.inr hm0)
  have h8 : ((8388608 : ℕ) : ℚ) = (2:ℚ) ^ (23 : ℤ) := by norm_num
  have hupp : fval false 0 m < 2 ^ (-126 : ℤ) := by
    rw [hqdef]
    calc (m : ℚ) * (2:ℚ) ^ (-149 : ℤ)
        < ((8388608 : ℕ) : ℚ) * (2:ℚ) ^ (-149 : ℤ) :=
          mul_lt_mul_of_pos_right (by exact_mod_cast hm) (two_zpow_pos _)
      _ = 2 ^ (-126 : ℤ) := by
          rw [h8, ← zpow_add₀ (by norm_num : (2:ℚ) ≠ 0)]
          congr 1
  have hlt : flog2 (fval false 0 m) < -126 := flog2_lt_of_lt _ hqpos _ hupp
  simp only [roundF]
  rw [if_neg (by omega : ¬ (128:ℤ) ≤ flog2 (fval false 0 m))]
  rw [max_eq_left (by omega : flog2 (fval false 0 m) ≤ (-126 : ℤ))]
  have harg : fval false 0 m * (2:ℚ) ^ ((23:ℤ) - -126) = ((m : ℤ) : ℚ) := by
    rw [hqdef, mul_assoc, ← zpow_add₀ (by norm_num : (2:ℚ) ≠ 0)]
    norm_num
  rw [harg, rneZ_intCast]
  rw [if_pos (by omega : (m : ℤ) < 8388608)]
  rw [Int.toNat_natCast]
  simp [mkF, Nat.mod_eq_of_lt hm]

theorem roundF_normal (s : Bool) (e m : ℕ) (he1 : 1 ≤ e) (he2 : e ≤ 254)
    (hm : m < 8388608) :
    roundF s (fval false e m) = F32.fin s ⟨e, by omega⟩ ⟨m, hm⟩ := by
  have hne : ¬ e = 0 := by omega
  have hqdef : fval false e m = ((8388608 + m : ℕ) : ℚ) * (2:ℚ) ^ ((e:ℤ) - 150) := by
    simp [fval, hne]
  have hqpos : 0 < fval false e m := fval_false_pos e m (Or.inl hne)
  have h8 : ((8388608 : ℕ) : ℚ) = (2:ℚ) ^ (23 : ℤ) := by norm_num
  have h16 : ((16777216 : ℕ) : ℚ) = (2:ℚ) ^ (24 : ℤ) := by norm_num
  have hlow : (2:ℚ) ^ ((e:ℤ) - 127) ≤ fval false e m := by
    rw [hqdef]
    calc (2:ℚ) ^ ((e:ℤ) - 127)
        = ((8388608 : ℕ) : ℚ) * 2 ^ ((e:ℤ) - 150) := by
          rw [h8, ← zpow_add₀ (by norm_num : (2:ℚ) ≠ 0)]
          congr 1
          ring
      _ ≤ ((8388608 + m : ℕ) : ℚ) * 2 ^ ((e:ℤ) - 150) :=
          mul_le_mul_of_nonneg_right (by exact_mod_cast Nat.le_add_right 8388608 m)
            (le_of_lt (two_zpow_pos _))
  have hupp : fval false e m < 2 ^ ((e:ℤ) - 126) := by
    rw [hqdef]
    calc ((8388608 + m : ℕ) : ℚ) * 2 ^ ((e:ℤ) - 150)
        < ((16777216 : ℕ) : ℚ) * 2 ^ ((e:ℤ) - 150) :=
          mul_lt_mul_of_pos_right (by exact_mod_cast (by omega : 8388608 + m < 16777216))
            (two_zpow_pos _)
      _ = 2 ^ ((e:ℤ) - 126) := by
          rw [h16, ← zpow_add₀ (by norm_num : (2:ℚ) ≠ 0)]
          congr 1
          ring
  have hflog : flog2 (fval false e m) = (e:ℤ) - 127 := by
    apply flog2_unique _ hqpos _ hlow
    have hx : (e:ℤ) - 127 + 1 = (e:ℤ) - 126 := by ring
    rw [hx]
    exact hupp
  simp only [roundF, hflog]
  rw [if_neg (by omega : ¬ (128:ℤ) ≤ (e:ℤ) - 127)]
  rw [max_eq_right (by omega : (-126 : ℤ) ≤ (e:ℤ) - 127)]
  have harg : fval false e m * (2:ℚ) ^ ((23:ℤ) - ((e:ℤ) - 127))
      = (((8388608 + m : ℕ) : ℤ) : ℚ) := by
    rw [hqdef, mul_assoc, ← zpow_add₀ (by norm_num : (2:ℚ) ≠ 0)]
    have hx : (e:ℤ) - 150 + (23 - ((e:ℤ) - 127)) = 0 := by ring
    rw [hx, zpow_zero, mul_one]
    push_cast
    ring
  rw [harg, rneZ_intCast]
  rw [if_neg (by push_cast; omega : ¬ (((8388608 + m : ℕ) : ℤ) < 8388608))]
  rw [if_pos (by push_cast; omega : ((8388608 + m : ℕ) : ℤ) < 16777216)]
  have ht1 : ((e:ℤ) - 127 + 127).toNat = e := by omega
  have ht2 : (((8388608 + m : ℕ) : ℤ) - 8388608).toNat = m := by push_cast; omega
  rw [ht1, ht2]
  simp [mkF, Nat.mod_eq_of_lt (by omega : e < 255), Nat.mod_eq_of_lt hm]

theorem roundQ_fval (s : Bool) (e m : ℕ) (he : e < 255) (hm : m < 8388608)
    (h0 : e ≠ 0 ∨ m ≠ 0) :
    roundQ (fval s e m) = F32.fin s ⟨e, he⟩ ⟨m, hm⟩ := by
  have hpos : 0 < fval false e m := fval_false_pos e m h0
  have hR : ∀ s1 : Bool, roundF s1 (fval false e m) = F32.fin s1 ⟨e, he⟩ ⟨m, hm⟩ := by
    intro s1
    rcases Nat.eq_zero_or_pos e with he0 | hep
    · subst he0
      have hm0 : m ≠ 0 := by tauto
      exact roundF_subnormal s1 m hm0 hm
    · exact roundF_normal s1 e m hep (by omega) hm
  cases s
  · simp only [roundQ]
    rw [if_neg (not_lt.mpr (le_of_lt hpos))]
    exact hR false
  · have hneg : fval true e m = -fval false e m := fval_true_eq e m
    simp only [roundQ, hneg]
    rw [if_pos (by linarith : -fval false e m < 0), neg_neg]
    exact hR true

theorem fval_one : fval false 127 0 = 1 := by
  norm_num [fval]

theorem fin_nonzero_of_val_ne (s : Bool) (e : Fin 255) (m : Fin 8388608)
    (hv : fval s e.val m.val ≠ 0) : e.val ≠ 0 ∨ m.val ≠ 0 := by
  by_contra hc
  push_neg at hc
  exact hv (by rw [hc.1, hc.2, fval_zero_any])

theorem fadd_zero_sign (s1 : Bool) (e : Fin 255) (m : Fin 8388608) (zs : Bool) :
    feq (fadd (F32.fin s1 e m) (F32.fin zs ⟨0, by decide⟩ ⟨0, by decide⟩))
      (F32.fin s1 e m) = true := by
  by_cases hv : fval s1 e.val m.val = 0
  · simp [fadd, fval_zero_any, hv, feq]
  · have h0 := fin_nonzero_of_val_ne s1 e m hv
    simp [fadd, fval_zero_any, hv]
    rw [roundQ_fval s1 e.val m.val e.isLt m.isLt h0]
    simp [feq]

theorem fadd_pzero_feq (a : F32) (h : a.isFinite = true) :
    feq (fadd a f32zero) a = true := by
  cases a with
  | nan => simp [F32.isFinite] at h
  | inf s => simp [F32.isFinite] at h
  | fin s e m => exact fadd_zero_sign s e m false

theorem fsub_pzero_feq (a : F32) (h : a.isFinite = true) :
    feq (fsub a f32zero) a = true := by
  cases a with
  | nan => simp [F32.isFinite] at h
  | inf s => simp [F32.isFinite] at h
  | fin s e m => exact fadd_zero_sign s e m true

theorem fmul_pone_feq (a : F32) (h : a.isFinite = true) :
    feq (fmul a f32one) a = true := by
  cases a with
  | nan => simp [F32.isFinite] at h
  | inf s => simp [F32.isFinite] at h
  | fin s e m =>
    show feq
      (if fval s e.val m.val * fval false 127 0 = 0
       then F32.fin (xor s false) ⟨0, by decide⟩ ⟨0, by decide⟩
       else roundQ (fval s e.val m.val * fval false 127 0))
      (F32.fin s e m) = true
    rw [fval_one, mul_one]
    by_cases hv : fval s e.val m.val = 0
    · rw [if_pos hv]
      simp [feq, fval_zero_any, hv]
    · rw [if_neg hv,
        roundQ_fval s e.val m.val e.isLt m.isLt (fin_nonzero_of_val_ne s e m hv)]
      simp [feq]

theorem fdiv_pone_feq (a : F32) (h : a.isFinite = true) :
    feq (fdiv a f32one) a = true := by
  cases a with
  | nan => simp [F32.isFinite] at h
  | inf s => simp [F32.isFinite] at h
  | fin s e m =>
    show feq
      (if fval s e.val m.val / fval false 127 0 = 0
       then F32.fin (xor s false) ⟨0, by decide⟩ ⟨0, by decide⟩
       else roundQ (fval s e.val m.val / fval false 127 0))
      (F32.fin s e m) = true
    rw [fval_one, div_one]
    by_cases hv : fval s e.val m.val = 0
    · rw [if_pos hv]
      simp [feq, fval_zero_any, hv]
    · rw [if_neg hv,
        roundQ_fval s e.val m.val e.isLt m.isLt (fin_nonzero_of_val_ne s e m hv)]
      simp [feq]

theorem fadd_comm (x y : F32) : fadd x y = fadd y x := by
  cases x with
  | nan => cases y <;> rfl
  | inf s1 =>
    cases y with
    | nan => rfl
    | inf s2 => cases s1 <;> cases s2 <;> rfl
    | fin s2 e m => rfl
  | fin s1 e1 m1 =>
    cases y with
    | nan => rfl
    | inf s2 => rfl
    | fin s2 e2 m2 => cases s1 <;> cases s2 <;> simp [fadd, add_comm]

theorem fmul_comm (x y : F32) : fmul x y = fmul y x := by
  cases x with
  | nan => cases y <;> rfl
  | inf s1 =>
    cases y with
    | nan => rfl
    | inf s2 => cases s1 <;> cases s2 <;> rfl
    | fin s2 e m => cases s1 <;> cases s2 <;> rfl
  | fin s1 e1 m1 =>
    cases y with
    | nan => rfl
    | inf s2 => cases s1 <;> cases s2 <;> rfl
    | fin s2 e2 m2 => cases s1 <;> cases s2 <;> simp [fmul, mul_comm]

theorem float4_add_comm (a b : float4) : a.add b = b.add a := by
  simp [float4.add, fadd_comm a.x b.x, fadd_comm a.y b.y,
    fadd_comm a.z b.z, fadd_comm a.w b.w]

theorem float4_mul_comm (a b : float4) : a.mul b = b.mul a := by
  simp [float4.mul, fmul_comm a.x b.x, fmul_comm a.y b.y,
    fmul_comm a.z b.z, fmul_comm a.w b.w]

/-- C4: matrix-matrix addition and multiplication are commutative
bit-for-bit: the results are equal as binary32 data in every lane (in the
model NaN payloads are abstracted into one canonical NaN, which is the
only freedom IEEE-754 leaves in `a+b` versus `b+a`; no rounding or
representation difference arises from the operand order). -/
theorem C4_add_mul_commutative (A B : float3x4) :
    A.add B = B.add A ∧ A.mul B = B.mul A := by
  constructor
  · simp [float3x4.add, float4_add_comm A.row0 B.row0,
      float4_add_comm A.row1 B.row1, float4_add_comm A.row2 B.row2]
  · simp [float3x4.mul, float4_mul_comm A.row0 B.row0,
      float4_mul_comm A.row1 B.row1, float4_mul_comm A.row2 B.row2]

theorem float4_add_zero (v : float4) (h : v.allFinite = true) :
    (v.add (float4.broadcast f32zero)).feq4 v = true := by
  obtain ⟨x, y, z, w⟩ := v
  simp only [float4.allFinite, Bool.and_eq_true] at h
  obtain ⟨⟨⟨hx, hy⟩, hz⟩, hw⟩ := h
  simp only [float4.add, float4.broadcast, float4.feq4, Bool.and_eq_true]
  exact ⟨⟨⟨fadd_pzero_feq x hx, fadd_pzero_feq y hy⟩, fadd_pzero_feq z hz⟩,
    fadd_pzero_feq w hw⟩

theorem float4_sub_zero (v : float4) (h : v.allFinite = true) :
    (v.sub (float4.broadcast f32zero)).feq4 v = true := by
  obtain ⟨x, y, z, w⟩ := v
  simp only [float4.allFinite, Bool.and_eq_true] at h
  obtain ⟨⟨⟨hx, hy⟩, hz⟩, hw⟩ := h
  simp only [float4.sub, float4.broadcast, float4.feq4, Bool.and_eq_true]
  exact ⟨⟨⟨fsub_pzero_feq x hx, fsub_pzero_feq y hy⟩, fsub_pzero_feq z hz⟩,
    fsub_pzero_feq w hw⟩

theorem float4_mul_one (v : float4) (h : v.allFinite = true) :
    (v.mul (float4.broadcast f32one)).feq4 v = true := by
  obtain ⟨x, y, z, w⟩ := v
  simp only [float4.allFinite, Bool.and_eq_true] at h
  obtain ⟨⟨⟨hx, hy⟩, hz⟩, hw⟩ := h
  simp only [float4.mul, float4.broadcast, float4.feq4, Bool.and_eq_true]
  exact ⟨⟨⟨fmul_pone_feq x hx, fmul_pone_feq y hy⟩, fmul_pone_feq z hz⟩,
    fmul_pone_feq w hw⟩

theorem float4_div_one (v : float4) (h : v.allFinite = true) :
    (v.div (float4.broadcast f32one)).feq4 v = true := by
  obtain ⟨x, y, z, w⟩ := v
  simp only [float4.allFinite, Bool.and_eq_true] at h
  obtain ⟨⟨⟨hx, hy⟩, hz⟩, hw⟩ := h
  simp only [float4.div, float4.broadcast, float4.feq4, Bool.and_eq_true]
  exact ⟨⟨⟨fdiv_pone_feq x hx, fdiv_pone_feq y hy⟩, fdiv_pone_feq z hz⟩,
    fdiv_pone_feq w hw⟩

/-- C5: the scalar identity laws hold elementwise (IEEE-754 equality, as
`==` denotes on floats) for every matrix all of whose entries are finite:
`A + 0.0 == A`, `A - 0.0 == A`, `A * 1.0 == A`, `A / 1.0 == A`. -/
theorem C5_scalar_identity_laws (A : float3x4) (h : A.allFinite = true) :
    (A.addScalar f32zero).feqM A = true ∧
    (A.subScalar f32zero).feqM A = true ∧
    (A.mulScalar f32one).feqM A = true ∧
    (A.divScalar f32one).feqM A = true := by
  obtain ⟨r0, r1, r2⟩ := A
  simp only [float3x4.allFinite, Bool.and_eq_true] at h
  obtain ⟨⟨h0, h1⟩, h2⟩ := h
  refine ⟨?_, ?_, ?_, ?_⟩
  · simp only [float3x4.addScalar, float3x4.feqM, Bool.and_eq_true]
    exact ⟨⟨float4_add_zero r0 h0, float4_add_zero r1 h1⟩, float4_add_zero r2 h2⟩
  · simp only [float3x4.subScalar, float3x4.feqM, Bool.and_eq_true]
    exact ⟨⟨float4_sub_zero r0 h0, float4_sub_zero r1 h1⟩, float4_sub_zero r2 h2⟩
  · simp only [float3x4.mulScalar, float3x4.feqM, Bool.and_eq_true]
    exact ⟨⟨float4_mul_one r0 h0, float4_mul_one r1 h1⟩, float4_mul_one r2 h2⟩
  · simp only [float3x4.divScalar, float3x4.feqM, Bool.and_eq_true]
    exact ⟨⟨float4_div_one r0 h0, float4_div_one r1 h1⟩, float4_div_one r2 h2⟩

/-- Witness for C5: the finiteness hypothesis holds for the concrete
matrix `c5M` (checked by evaluation), and the identity laws follow. -/
theorem C5_scalar_identity_laws_witness :
    c5M.allFinite = true ∧
    ((c5M.addScalar f32zero).feqM c5M = true ∧
     (c5M.subScalar f32zero).feqM c5M = true ∧
     (c5M.mulScalar f32one).feqM c5M = true ∧
     (c5M.divScalar f32one).feqM c5M = true) :=
  ⟨by decide, C5_scalar_identity_laws c5M (by decide)⟩
